import Mathlib

/-!
Shallow embedding of the mistral.rs fork (joshpopelka20/mistral.rs):
the Llama forward pass with sequence-chunked multi-device attention
(src/mistralrs-core/src/models/llama.rs), the batch input construction
(src/mistralrs-core/src/pipeline/mod.rs) and the SSE completion streamer
(src/mistralrs-server/src/completions.rs), together with theorems settling
the specification claims about them.
-/

/-! ## Devices and tokens -/

/-- Abstract accelerator device (candle_core::Device), identified by an id. -/
abbrev Device := Nat

/-- Token id (u32 in the source). -/
abbrev Token := Nat

namespace Llama

/-! ## Sequence chunking at forward entry
src/mistralrs-core/src/models/llama.rs, Llama::forward, lines 384-407. -/

/-- The chunk count in Llama::forward and the per-device KV-cache count in
Llama::new: both are the literal binding (let num_devices = 4) in the source. -/
def num_devices : Nat := 4

/-- One sequence chunk produced at forward entry: the half-open slice
[start, stop) of the sequence axis, staged onto cuda_devices[deviceIdx]. -/
structure Chunk where
  start : Nat
  stop : Nat
  deviceIdx : Nat
deriving Repr, DecidableEq

/-- Llama::forward, lines 384-407: slice the activation along the sequence
axis.  chunk_size = seq_len / num_devices (integer division).  If
seq_len < num_devices, one single-token chunk per position is produced;
otherwise num_devices chunks, the last one running to seq_len.  Chunk j is
moved to cuda_devices[j]. -/
def makeChunks (seq_len : Nat) : List Chunk :=
  let chunk_size := seq_len / num_devices
  if seq_len < num_devices then
    (List.range seq_len).map (fun j => ⟨j, j + 1, j⟩)
  else
    (List.range num_devices).map (fun j =>
      ⟨j * chunk_size,
       if j = num_devices - 1 then seq_len else (j + 1) * chunk_size, j⟩)

/-- Length of a chunk along the sequence axis. -/
def Chunk.len (c : Chunk) : Nat := c.stop - c.start

/-! ## Block residual structure
src/mistralrs-core/src/models/llama.rs, Block::forward (lines 292-320) and
the feed-forward step of Llama::forward (lines 503-506). -/

/-- The per-block sub-modules as functions on hidden states, taken at a
fixed attention context (mask, seqlen offsets, cache): rms_1, the
attention sub-module, rms_2, and the mlp.  V is the hidden-state space and
addition is the residual add. -/
structure BlockFns (V : Type) where
  rms_1 : V → V
  attn : V → V
  rms_2 : V → V
  mlp : V → V

/-- Block::forward, lines 292-320: the attention residual is added and
rms_2 is applied; the source's mlp line is commented out, so the block
returns the rms_2 output directly, with the second residual binding left
unused. -/
def Block.forward {V : Type} [Add V] (B : BlockFns V) (x : V) : V :=
  let residual := x
  let x := B.rms_1 x
  let x := B.attn x + residual
  let residual := x
  let x := B.rms_2 x
  let _ := residual
  x

/-- Llama::forward, lines 503-506: after a block's chunk outputs are
concatenated, the mlp runs with the concatenated value itself as the
residual (residual = x.clone(); x = mlp(x); x = x + residual). -/
def mlpStep {V : Type} [Add V] (B : BlockFns V) (x : V) : V :=
  let residual := x
  let x := B.mlp x
  x + residual

/-- Concrete instantiation of the block sub-modules over integers used to
separate the code's block output from the output the claim prescribes. -/
def blockFnsCex : BlockFns Int :=
  { rms_1 := fun v => v, attn := fun v => v, rms_2 := fun v => 2 * v,
    mlp := fun v => v }

/-! ## Dtype flow around quantized matmuls
src/mistralrs-core/src/models/llama.rs: CausalSelfAttention::forward
(lines 72-84 and 154-165), Mlp::forward (lines 225-238) and the LM head of
Llama::forward (lines 511-517). -/

/-- Tensor dtypes relevant to the dtype flow of the forward pass. -/
inductive DType
  | F16
  | BF16
  | F32
deriving Repr, DecidableEq

/-- A candle QMatMul weight: either quantized (QTensor) or plain.  The
TensorF16 variant behaves like Tensor for the casts under study. -/
inductive QMatMul
  | QTensor
  | Tensor
deriving Repr, DecidableEq

/-- MatMul.qmatmul returns a tensor of its activation's dtype for both
weight variants. -/
def qmatmulDtype (_w : QMatMul) (x : DType) : DType := x

/-- The dtypes observed in one CausalSelfAttention::forward call. -/
structure AttnDtypes where
  projActivation : DType
  qkv : DType
  oActivation : DType
  output : DType
deriving Repr, DecidableEq

/-- CausalSelfAttention::forward dtype flow: if q_proj is quantized the
input is upcast to F32 before the q/k/v matmuls and q, k, v are cast back
to the original dtype (lines 72-84); before o_proj the same gate upcasts
again and the o_proj result is cast back (lines 154-165).  The attention
kernel itself preserves dtype. -/
def CausalSelfAttention.dtypeFlow (q_proj o_proj : QMatMul) (xdt : DType) :
    AttnDtypes :=
  let original_dtype := xdt
  let x := if q_proj = QMatMul.QTensor then DType.F32 else xdt
  let q := qmatmulDtype q_proj x
  let q := if q_proj = QMatMul.QTensor then original_dtype else q
  let y := q
  let y := if q_proj = QMatMul.QTensor then DType.F32 else y
  let o := qmatmulDtype o_proj y
  let o := if q_proj = QMatMul.QTensor then original_dtype else o
  ⟨x, q, y, o⟩

/-- Mlp::forward dtype flow (lines 225-238): if c_fc1 is quantized the
input is upcast to F32 for the gate/up/down matmuls and the result is cast
back to the original dtype.  Returns (matmul activation dtype, output
dtype). -/
def Mlp.dtypeFlow (c_fc1 c_fc2 c_proj : QMatMul) (xdt : DType) :
    DType × DType :=
  let original_dtype := xdt
  let x := if c_fc1 = QMatMul.QTensor then DType.F32 else xdt
  let h := qmatmulDtype c_fc2 (qmatmulDtype c_fc1 x)
  let res := qmatmulDtype c_proj h
  let res := if c_fc1 = QMatMul.QTensor then original_dtype else res
  (x, res)

/-- Llama::forward LM-head tail (lines 511-517): after the final RMSNorm,
if lm_head is quantized the hidden state is upcast to F32 and the matmul
result is passed to extract_logits with no cast back.  Returns (matmul
activation dtype, logits dtype). -/
def lmHeadDtypeFlow (lm_head : QMatMul) (xdt : DType) : DType × DType :=
  let x := if lm_head = QMatMul.QTensor then DType.F32 else xdt
  let logits := qmatmulDtype lm_head x
  (x, logits)

/-! ## The seq_len = 1 tensor-layout fast path
src/mistralrs-core/src/models/llama.rs, CausalSelfAttention::forward,
lines 86-116.  A contiguous tensor is modelled by its flat row-major data;
reshape reinterprets the flat data under new dimensions and transpose(1,2)
swaps the two middle indices of a 4-D view.  contiguous() does not change
the logical view. -/

/-- Row-major 4-D view of flat data under dimensions (d0, d1, d2, d3);
only the three trailing dimension sizes enter the index arithmetic. -/
def reshape4 {α : Type} (d1 d2 d3 : Nat) (flat : Nat → α) :
    Nat → Nat → Nat → Nat → α :=
  fun i j k l => flat (((i * d1 + j) * d2 + k) * d3 + l)

/-- candle transpose(1,2) on a 4-D view. -/
def transpose12 {α : Type} (t : Nat → Nat → Nat → Nat → α) :
    Nat → Nat → Nat → Nat → α :=
  fun i j k l => t i k j l

/-- The general path for Q, K and V (lines 88-90 and 99-107): reshape to
(b_sz, seq_len, heads, head_dim), then transpose dims 1 and 2, giving a
(b_sz, heads, seq_len, head_dim) view. -/
def CausalSelfAttention.generalLayout {α : Type} (seq_len heads head_dim : Nat)
    (flat : Nat → α) : Nat → Nat → Nat → Nat → α :=
  transpose12 (reshape4 seq_len heads head_dim flat)

/-- The seq_len = 1 fast path (lines 91-94 and 108-116): reshape directly
to (b_sz, heads, seq_len, head_dim) without a transpose. -/
def CausalSelfAttention.fastLayout {α : Type} (seq_len heads head_dim : Nat)
    (flat : Nat → α) : Nat → Nat → Nat → Nat → α :=
  reshape4 heads seq_len head_dim flat

/-! ## KV caches in the chunk-attention loop
src/mistralrs-core/src/models/llama.rs, Llama::forward, lines 409-509,
eager (non-paged) attention, metadata = None.  Keys and values of one
layer slot always move together, so a slot is modelled by its device and
its past sequence length. -/

/-- The (key, value) pair held by one layer slot of a per-device KV cache:
the device the tensors live on and their past sequence length. -/
structure KVSlot where
  device : Device
  pastLen : Nat
deriving Repr, DecidableEq

/-- One per-device KV cache (crate::pipeline::LayerCaches): a vector of
per-layer slots, each empty or holding a (K, V) pair. -/
abbrev LayerCaches := List (Option KVSlot)

/-- Modelled from the spec: crate::pipeline::Cache::update_kv_cache is not
among the provided sources.  Per the spec, the incoming K and V are
concatenated onto the existing cache for that layer along the sequence
dimension, producing the new past; an empty slot starts from the incoming
tensors.  At this level the incoming K/V carry the staged chunk's device
and sequence length. -/
def update_kv_cache (slot : Option KVSlot) (incomingDev : Device)
    (incomingLen : Nat) : KVSlot :=
  match slot with
  | none => ⟨incomingDev, incomingLen⟩
  | some kv => ⟨kv.device, kv.pastLen + incomingLen⟩

/-- Move every nonempty slot of a cache to device d (the map with
to_device used both for staging, lines 434-438, and for restoring,
lines 486-490). -/
def moveCache (cache : LayerCaches) (d : Device) : LayerCaches :=
  cache.map (fun opt => opt.map (fun kv => ⟨d, kv.pastLen⟩))

/-- Llama::forward, lines 429-431: the original device of a cache is the
device of its first nonempty slot's key, defaulting to the chunk's
device. -/
def originalCacheDevice (cache : LayerCaches) (device_chunk : Device) :
    Device :=
  match cache.findSome? (fun opt => opt.map (fun kv => kv.device)) with
  | some d => d
  | none => device_chunk

/-- The effect of one cache rotation on the visited cache (lines 426-490):
record the original device, stage every slot onto the chunk's device
cuda_devices[c.deviceIdx], append this chunk's K/V at layer block_idx via
update_kv_cache (the non-paged arm of CausalSelfAttention::forward,
lines 131-133), and move every slot back to the original device. -/
def cacheVisit (cuda_devices : List Device) (block_idx : Nat) (c : Chunk)
    (cache : LayerCaches) : LayerCaches :=
  let device_chunk := cuda_devices.getD c.deviceIdx 0
  let original_cache_device := originalCacheDevice cache device_chunk
  let cache_on_chunk_device := moveCache cache device_chunk
  let updated := cache_on_chunk_device.set block_idx
    (some (update_kv_cache (cache_on_chunk_device.getD block_idx none)
      device_chunk c.len))
  moveCache updated original_cache_device

/-- One iteration of the cache-rotation loop (lines 421-492): the cache
with index (chunk_idx + cache_rotation) % num_caches is visited and
written back; every other cache is untouched. -/
def rotationStep (cuda_devices : List Device) (block_idx chunk_idx : Nat)
    (c : Chunk) (caches : List LayerCaches) (cache_rotation : Nat) :
    List LayerCaches :=
  let num_caches := caches.length
  let cache_idx := (chunk_idx + cache_rotation) % num_caches
  caches.set cache_idx
    (cacheVisit cuda_devices block_idx c (caches.getD cache_idx []))

/-- The full rotation loop for one chunk (for cache_rotation in
0..num_caches, line 421). -/
def chunkStep (cuda_devices : List Device) (block_idx chunk_idx : Nat)
    (c : Chunk) (caches : List LayerCaches) : List LayerCaches :=
  let num_caches := caches.length
  (List.range num_caches).foldl
    (rotationStep cuda_devices block_idx chunk_idx c) caches

/-- The chunk loop of one block (for (chunk_idx, chunk) in
chunks.iter().enumerate(), line 416). -/
def blockCachesStep (cuda_devices : List Device) (block_idx : Nat)
    (chunks : List Chunk) (caches : List LayerCaches) : List LayerCaches :=
  chunks.enum.foldl
    (fun cs ic => chunkStep cuda_devices block_idx ic.1 ic.2 cs) caches

/-- The cache effect of a whole forward pass (lines 409-509): the block
loop over the chunk loop over the rotation loop, with the chunk list built
once at forward entry. -/
def forwardCaches (cuda_devices : List Device) (num_layers seq_len : Nat)
    (caches : List LayerCaches) : List LayerCaches :=
  let chunks := makeChunks seq_len
  (List.range num_layers).foldl
    (fun cs block_idx => blockCachesStep cuda_devices block_idx chunks cs)
    caches

/-- The past length of a slot, when the slot is nonempty. -/
def slotLen (slot : Option KVSlot) : Option Nat :=
  slot.map (fun kv => kv.pastLen)

/-- A cache is resident on device d when all its nonempty slots live
on d. -/
def residentOn (cache : LayerCaches) (d : Device) : Prop :=
  ∀ slot ∈ cache, ∀ kv, slot = some kv → kv.device = d

instance (cache : LayerCaches) (d : Device) : Decidable (residentOn cache d) := by
  unfold residentOn
  infer_instance

/-- A cache is nonempty when some slot holds tensors. -/
def cacheNonempty (cache : LayerCaches) : Prop :=
  ∃ slot ∈ cache, slot.isSome

instance (cache : LayerCaches) : Decidable (cacheNonempty cache) := by
  unfold cacheNonempty
  infer_instance

/-- Abstract account of how the rotation/chunk visits drive one slot's
past length: each visit of a chunk turns the slot's length p into
(p.getD 0) + len, creating the slot if it was empty. -/
def slotLenFold (p : Option Nat) : List Chunk → Option Nat
  | [] => p
  | c :: tl => slotLenFold (some (p.getD 0 + c.len)) tl

/-! ## Sequence-length bookkeeping of Llama::forward
src/mistralrs-core/src/models/llama.rs, lines 409-517.  Every tensor in
the block loop is tracked by its length along the sequence axis (dim 1):
Block::forward, the rotation accumulator and the mlp step preserve it, and
Tensor::cat(_, 1) adds the lengths of its parts. -/

/-- The sequence length of the hidden-state tensor produced by the block
loop and fed (after the final RMSNorm) to the LM head: each block reads
the chunk list built at forward entry (the chunks variable is never
reassigned), concatenates its per-chunk outputs along the sequence axis,
pushes the result onto processed_chunks, and at line 510 processed_chunks
itself is concatenated along the sequence axis. -/
def forwardSeqLen (num_layers seq_len : Nat) : Nat :=
  let chunks := makeChunks seq_len
  let processed_chunks := (List.range num_layers).foldl
    (fun acc _block_idx =>
      let block_chunks := chunks.map Chunk.len
      let x := block_chunks.sum
      acc ++ [x])
    []
  processed_chunks.sum

end Llama

namespace PipelineInputs

/-! ## Batch input construction
src/mistralrs-core/src/pipeline/mod.rs, get_prompt_input (lines 182-204) and
get_completion_input (lines 206-228).  A batch is a list of per-sequence
token buffers; the resulting 2-D tensor is the list of its rows.  The
result is none exactly where the source panics (the unwrap on the maximum
of an empty iterator). -/

/-- get_prompt_input: pad every sequence with token id 0 to the maximum
length in the batch; every seqlen offset is 0. -/
def get_prompt_input (input_toks : List (List Token)) :
    Option (List (List Token) × List Nat) :=
  match (input_toks.map List.length).max? with
  | none => none
  | some max_len =>
    let padding_tok : Token := 0
    some (input_toks.map (fun ctxt =>
            ctxt ++ List.replicate (max_len - ctxt.length) padding_tok),
          input_toks.map (fun _ => 0))

/-- get_completion_input: with no_kv_cache it falls back to
get_prompt_input; otherwise each row is toks[start_pos..] with
start_pos = len.saturating_sub(1) (Nat subtraction), and the seqlen offset
is start_pos. -/
def get_completion_input (input_toks : List (List Token)) (no_kv_cache : Bool) :
    Option (List (List Token) × List Nat) :=
  if no_kv_cache then get_prompt_input input_toks
  else
    some (input_toks.map (fun toks => toks.drop (toks.length - 1)),
          input_toks.map (fun toks => toks.length - 1))

end PipelineInputs

namespace Completions

/-! ## The SSE completion streamer
src/mistralrs-server/src/completions.rs, Streamer::poll_next,
lines 44-82. -/

/-- mistralrs_core::Response variants as matched by Streamer::poll_next.
CompletionChunk carries its done flag and data; the chat-side variants are
kept abstract since poll_next treats them as unreachable. -/
inductive Response
  | CompletionModelError (msg : String)
  | ValidationError (msg : String)
  | InternalError (msg : String)
  | CompletionChunk (done : Bool) (data : String)
  | CompletionDone
  | Chunk
  | Done
  | ModelError
deriving Repr, DecidableEq

/-- The outcome of one poll: Pending (try_recv returned Err), Ready none
(end of stream), Ready some r (an SSE event built from response r), or one
of the source's unreachable arms. -/
inductive PollResult
  | pending
  | ready (e : Option Response)
  | unreachableArm
deriving Repr, DecidableEq

/-- The streamer state: the queued responses of its receiver (head is
received first) and the is_done flag. -/
structure Streamer where
  rx : List Response
  is_done : Bool
deriving Repr, DecidableEq

/-- Streamer::poll_next (lines 47-81): if is_done, return Ready(None);
otherwise receive the next response if any, setting is_done when a
CompletionChunk with done = true is delivered. -/
def Streamer.poll_next (s : Streamer) : Streamer × PollResult :=
  if s.is_done then (s, PollResult.ready none)
  else
    match s.rx with
    | [] => (s, PollResult.pending)
    | r :: rest =>
      match r with
      | Response.CompletionModelError m =>
        ({ s with rx := rest }, PollResult.ready (some (Response.CompletionModelError m)))
      | Response.ValidationError m =>
        ({ s with rx := rest }, PollResult.ready (some (Response.ValidationError m)))
      | Response.InternalError m =>
        ({ s with rx := rest }, PollResult.ready (some (Response.InternalError m)))
      | Response.CompletionChunk done data =>
        ({ s with rx := rest, is_done := done },
         PollResult.ready (some (Response.CompletionChunk done data)))
      | Response.CompletionDone => ({ s with rx := rest }, PollResult.unreachableArm)
      | Response.Chunk => ({ s with rx := rest }, PollResult.unreachableArm)
      | Response.Done => ({ s with rx := rest }, PollResult.unreachableArm)
      | Response.ModelError => ({ s with rx := rest }, PollResult.unreachableArm)

/-- The results of n successive polls of the streamer. -/
def Streamer.run (s : Streamer) : Nat → List PollResult
  | 0 => []
  | n + 1 =>
    let p := s.poll_next
    p.2 :: p.1.run n

end Completions

/-! # Theorems -/

namespace Llama

/-! ## Chunking lemmas -/

lemma makeChunks_lt_four (S : Nat) (h : S < 4) :
    makeChunks S = (List.range S).map (fun j => ⟨j, j + 1, j⟩) := by
  unfold makeChunks num_devices
  rw [if_pos h]

lemma makeChunks_ge_four (S : Nat) (h : 4 ≤ S) :
    makeChunks S =
      [⟨0, S / 4, 0⟩, ⟨S / 4, 2 * (S / 4), 1⟩,
       ⟨2 * (S / 4), 3 * (S / 4), 2⟩, ⟨3 * (S / 4), S, 3⟩] := by
  unfold makeChunks num_devices
  rw [if_neg (by omega)]
  rw [(by decide : List.range 4 = [0, 1, 2, 3])]
  simp only [List.map_cons, List.map_nil]
  norm_num

lemma makeChunks_len_sum (S : Nat) :
    ((makeChunks S).map Chunk.len).sum = S := by
  by_cases h : S < 4
  · rw [makeChunks_lt_four S h]
    interval_cases S <;> decide
  · push_neg at h
    rw [makeChunks_ge_four S h]
    have hq : S / 4 * 4 ≤ S := Nat.div_mul_le_self S 4
    simp only [List.map_cons, List.map_nil, Chunk.len, List.sum_cons,
      List.sum_nil]
    omega

lemma makeChunks_ne_nil (S : Nat) (hS : 0 < S) : makeChunks S ≠ [] := by
  by_cases h : S < 4
  · rw [makeChunks_lt_four S h]
    interval_cases S <;> decide
  · push_neg at h
    rw [makeChunks_ge_four S h]
    simp

/-- C3: the claim prescribes chunk sizes of ceil(S/N) with the last chunk
absorbing the remainder; at S = 10 that would give sizes 3, 3, 3, 1, but
Llama::forward produces floor-based sizes 2, 2, 2, 4. -/
theorem makeChunks_not_ceil_cex :
    (makeChunks 10).map Chunk.len = [2, 2, 2, 4] ∧
    (makeChunks 10).map Chunk.len ≠
      [(10 + 3) / 4, (10 + 3) / 4, (10 + 3) / 4, 10 - 3 * ((10 + 3) / 4)] := by
  decide

lemma getElem?_range_map {α : Type} (n i : Nat) (f : Nat → α) (c : α)
    (hc : ((List.range n).map f)[i]? = some c) : c = f i := by
  rw [List.getElem?_map] at hc
  rcases hr : (List.range n)[i]? with _ | j
  · rw [hr] at hc
    simp at hc
  · have hi : i < n := by
      by_contra hi
      rw [List.getElem?_eq_none (by simpa using hi)] at hr
      exact Option.noConfusion hr
    rw [List.getElem?_range hi] at hc
    simpa using hc.symm

/-- C3 (amended): at forward entry the activation is sliced into a fixed
num_devices = 4 chunks (a constant, not the number of distinct devices in
the layer map) of floor(S/4) positions each, the last chunk absorbing the
remainder; if S < 4 one single-token chunk per position is produced and
the excess devices are unused; chunk i is staged onto cuda_devices[i]. -/
theorem makeChunks_spec (S : Nat) :
    (4 ≤ S →
      makeChunks S =
        [⟨0, S / 4, 0⟩, ⟨S / 4, 2 * (S / 4), 1⟩,
         ⟨2 * (S / 4), 3 * (S / 4), 2⟩, ⟨3 * (S / 4), S, 3⟩] ∧
      ((makeChunks S).map Chunk.len).sum = S) ∧
    (S < 4 → makeChunks S = (List.range S).map (fun j => ⟨j, j + 1, j⟩)) ∧
    (∀ (i : Nat) (c : Chunk), (makeChunks S)[i]? = some c → c.deviceIdx = i) := by
  refine ⟨fun h => ⟨makeChunks_ge_four S h, makeChunks_len_sum S⟩,
    fun h => makeChunks_lt_four S h, fun i c hc => ?_⟩
  unfold makeChunks num_devices at hc
  by_cases h : S < 4
  · rw [if_pos h] at hc
    have hi := getElem?_range_map S i _ c hc
    subst hi
    rfl
  · rw [if_neg h] at hc
    have hi := getElem?_range_map 4 i _ c hc
    subst hi
    rfl

/-- C3 witness: the amended statement evaluated at S = 10. -/
theorem makeChunks_spec_witness :
    makeChunks 10 =
      [⟨0, 2, 0⟩, ⟨2, 4, 1⟩, ⟨4, 6, 2⟩, ⟨6, 10, 3⟩] := by
  have h := ((makeChunks_spec 10).1 (by omega)).1
  rw [h]

/-! ## Block residual structure (C1) -/

/-- C1: the claim that every block outputs x1 + MLP(RMSNorm2(x1)) for
x1 = x + Attn(RMSNorm1(x)) fails: with rms_1 = attn = mlp = id and
rms_2 = doubling over the integers, at x = 1 Block::forward returns 4
while the claimed output is 6. -/
theorem block_forward_cex :
    Block.forward blockFnsCex 1 = 4 ∧
    ((1 : Int) + blockFnsCex.attn (blockFnsCex.rms_1 1)) +
      blockFnsCex.mlp (blockFnsCex.rms_2
        (1 + blockFnsCex.attn (blockFnsCex.rms_1 1))) = 6 ∧
    (4 : Int) ≠ 6 := by
  refine ⟨rfl, rfl, by decide⟩

/-- C1 (amended): the block computes x1 = x + Attn(RMSNorm1(x)) but
returns RMSNorm2(x1); the MLP is deferred outside the block, and when
Llama::forward applies it to the concatenated block output y, the MLP's
residual is y itself (the normed value), producing MLP(y) + y. -/
theorem block_forward_structure {V : Type} [Add V] (B : BlockFns V) (x y : V) :
    Block.forward B x = B.rms_2 (B.attn (B.rms_1 x) + x) ∧
    mlpStep B y = B.mlp y + y :=
  ⟨rfl, rfl⟩

/-! ## Sequential composition of blocks (C2) -/

lemma foldl_append_singleton {α β : Type} (l : List β) (v : α) (a : List α) :
    l.foldl (fun acc _ => acc ++ [v]) a = a ++ List.replicate l.length v := by
  induction l generalizing a with
  | nil => simp
  | cons x tl ih =>
    rw [List.foldl_cons, ih, List.append_assoc, List.singleton_append,
      ← List.replicate_succ, List.length_cons]

lemma forwardSeqLen_eq (L S : Nat) : forwardSeqLen L S = L * S := by
  simp only [forwardSeqLen]
  rw [foldl_append_singleton]
  simp [List.sum_replicate, makeChunks_len_sum, mul_comm]

/-- C2: the decoder blocks are not composed sequentially.  Every block
consumes the chunk list built at forward entry, each block's output is
pushed onto processed_chunks, and line 510 concatenates those L outputs
along the sequence axis, so with L = 2 layers and input sequence length
S = 4 the hidden state entering the final RMSNorm and LM head has
sequence length 8 = L * S, not S. -/
theorem forward_seq_len_bug :
    forwardSeqLen 2 4 = 8 ∧ (8 : Nat) ≠ 4 ∧
    ∀ (L S : Nat), forwardSeqLen L S = L * S :=
  ⟨by decide, by decide, forwardSeqLen_eq⟩

/-! ## Dtype flow around quantized matmuls (C7) -/

/-- C7: the final logits are not returned in the model's runtime dtype
when the LM head is quantized: with runtime dtype F16 the Llama::forward
tail upcasts to F32 for the LM-head matmul and passes the F32 result to
extract_logits with no cast back. -/
theorem lm_head_logits_dtype_cex :
    lmHeadDtypeFlow QMatMul.QTensor DType.F16 = (DType.F32, DType.F32) ∧
    DType.F32 ≠ DType.F16 := by
  decide

/-- C7 (amended): around every quantized matmul of the attention and MLP
components the activation is upcast to F32 and the result is cast back to
the input dtype before leaving the component, the gate being q_proj for
the four attention projections and c_fc1 for the three MLP projections;
the LM head also upcasts to F32 when quantized but leaves the logits in
F32 instead of the runtime dtype. -/
theorem dtype_flow_spec (o_proj c_fc2 c_proj : QMatMul) (xdt : DType) :
    CausalSelfAttention.dtypeFlow QMatMul.QTensor o_proj xdt =
      ⟨DType.F32, xdt, DType.F32, xdt⟩ ∧
    CausalSelfAttention.dtypeFlow QMatMul.Tensor o_proj xdt =
      ⟨xdt, xdt, xdt, xdt⟩ ∧
    Mlp.dtypeFlow QMatMul.QTensor c_fc2 c_proj xdt = (DType.F32, xdt) ∧
    Mlp.dtypeFlow QMatMul.Tensor c_fc2 c_proj xdt = (xdt, xdt) ∧
    lmHeadDtypeFlow QMatMul.QTensor xdt = (DType.F32, DType.F32) ∧
    lmHeadDtypeFlow QMatMul.Tensor xdt = (xdt, xdt) :=
  ⟨rfl, rfl, rfl, rfl, rfl, rfl⟩

/-! ## The seq_len = 1 layout fast path (C9) -/

/-- C9: at seq_len = 1 the fast path (reshape directly to
(b_sz, heads, 1, head_dim)) is the same tensor view as the general path
(reshape to (b_sz, 1, heads, head_dim) then transpose dims 1 and 2), for
Q and K as well as for V (heads there being the KV head count), so the
fast path does not change the attention output. -/
theorem seq1_fast_layout_eq {α : Type} (heads head_dim : Nat) (flat : Nat → α)
    (i j l : Nat) :
    CausalSelfAttention.generalLayout 1 heads head_dim flat i j 0 l =
      CausalSelfAttention.fastLayout 1 heads head_dim flat i j 0 l := by
  unfold CausalSelfAttention.generalLayout CausalSelfAttention.fastLayout
    reshape4 transpose12
  ring_nf

end Llama

namespace PipelineInputs

/-! ## Batch input construction (C6, C8) -/

lemma drop_length_sub_one {α : Type} (t : List α) (h : t ≠ []) :
    t.drop (t.length - 1) = t.getLast?.toList := by
  induction t with
  | nil => exact absurd rfl h
  | cons a tl ih =>
    rcases tl with _ | ⟨b, tl2⟩
    · rfl
    · have h2 : (b :: tl2 : List α) ≠ [] := by simp
      rw [List.getLast?_cons_cons]
      rw [← ih h2]
      rfl

lemma get_prompt_input_isSome (toks : List (List Token)) (h : toks ≠ []) :
    (get_prompt_input toks).isSome := by
  unfold get_prompt_input
  rcases hm : (toks.map List.length).max? with _ | m
  · rw [List.max?_eq_none_iff] at hm
    exact absurd (List.map_eq_nil_iff.1 hm) h
  · rfl

/-- C8: get_prompt_input is defined only for non-empty batches: on a
non-empty batch it returns the padded tensor and offsets, on the empty
batch the unwrap of the maximum over an empty iterator panics (none
here), and get_completion_input with no_kv_cache = true is exactly
get_prompt_input. -/
theorem get_prompt_input_empty_panics (toks : List (List Token))
    (h : toks ≠ []) :
    (get_prompt_input toks).isSome ∧
    get_prompt_input ([] : List (List Token)) = none ∧
    get_completion_input toks true = get_prompt_input toks :=
  ⟨get_prompt_input_isSome toks h, rfl, rfl⟩

/-- C8 witness: the statement of get_prompt_input_empty_panics at the
one-sequence batch [[1]]. -/
theorem get_prompt_input_empty_panics_witness :
    (get_prompt_input [[1]]).isSome ∧
    get_prompt_input ([] : List (List Token)) = none := by
  have h := get_prompt_input_empty_panics [[1]] (by decide)
  exact ⟨h.1, h.2.1⟩

/-- C6: the claim fails on a non-empty batch containing an empty
sequence: for the batch [[]] the decode path sends zero tokens for that
sequence (saturating_sub gives start_pos = 0 and toks[0..] = []), not
exactly one. -/
theorem get_completion_input_empty_seq_cex :
    ([([] : List Token)] : List (List Token)) ≠ [] ∧
    get_completion_input [([] : List Token)] false = some ([[]], [0]) ∧
    (([] : List Token)).length = 0 := by
  refine ⟨by decide, rfl, rfl⟩

/-- C6 (amended): for every non-empty batch of non-empty sequences the
decode-step construction sends exactly one token per sequence — its last
one — with seqlen_offsets[i] = len(seq_i) - 1, and with KV caching
disabled it returns exactly the prompt-step construction over the full
history. -/
theorem get_completion_input_decode (toks : List (List Token))
    (hne : toks ≠ []) (hall : ∀ t ∈ toks, t ≠ []) :
    get_completion_input toks false =
      some (toks.map (fun t => t.getLast?.toList),
            toks.map (fun t => t.length - 1)) ∧
    (∀ t ∈ toks, (t.getLast?.toList).length = 1) ∧
    get_completion_input toks true = get_prompt_input toks ∧
    (get_prompt_input toks).isSome := by
  refine ⟨?_, ?_, rfl, get_prompt_input_isSome toks hne⟩
  · unfold get_completion_input
    rw [if_neg (by simp)]
    have hmap : toks.map (fun t => t.drop (t.length - 1)) =
        toks.map (fun t => t.getLast?.toList) :=
      List.map_congr_left (fun t ht => drop_length_sub_one t (hall t ht))
    rw [hmap]
  · intro t ht
    have hs : t.getLast?.isSome := List.getLast?_isSome.2 (hall t ht)
    rcases Option.isSome_iff_exists.1 hs with ⟨x, hx⟩
    rw [hx]
    rfl

/-- C6 witness: the amended statement evaluated on the batch
[[1, 2], [3]]. -/
theorem get_completion_input_decode_witness :
    get_completion_input [[1, 2], [3]] false = some ([[2], [3]], [1, 0]) := by
  have h := get_completion_input_decode [[1, 2], [3]] (by decide) (by decide)
  rw [h.1]
  decide

end PipelineInputs

namespace Completions

/-! ## The SSE completion streamer (C10) -/

lemma poll_next_done (s : Streamer) (h : s.is_done = true) :
    s.poll_next = (s, PollResult.ready none) := by
  unfold Streamer.poll_next
  rw [if_pos h]

lemma run_done (s : Streamer) (h : s.is_done = true) (n : Nat) :
    s.run n = List.replicate n (PollResult.ready none) := by
  induction n with
  | zero => rfl
  | succ n ih =>
    show (s.poll_next).2 :: (s.poll_next).1.run n = _
    rw [poll_next_done s h]
    rw [List.replicate_succ]
    exact congrArg _ ih

lemma poll_next_done_chunk (s : Streamer) (d : String)
    (h : (s.poll_next).2 =
      PollResult.ready (some (Response.CompletionChunk true d))) :
    (s.poll_next).1.is_done = true := by
  obtain ⟨rx, done⟩ := s
  cases done
  · cases rx with
    | nil => exact nomatch h
    | cons r rest => cases r <;> simp_all [Streamer.poll_next]
  · rfl

/-- C10: once a poll of the streamer yields a CompletionChunk whose done
flag is true, every later poll of the same run returns end-of-stream
(Ready none); in particular at most one done-marked chunk is delivered
and no event of any kind follows it. -/
theorem stream_done_terminal (s : Streamer) (n i j : Nat) (d : String)
    (hij : i < j) (hjn : j < n)
    (hi : (s.run n)[i]? =
      some (PollResult.ready (some (Response.CompletionChunk true d)))) :
    (s.run n)[j]? = some (PollResult.ready none) := by
  induction i generalizing s n j with
  | zero =>
    cases n with
    | zero => omega
    | succ m =>
      rw [show s.run (m + 1) = (s.poll_next).2 :: (s.poll_next).1.run m
        from rfl] at hi ⊢
      rw [List.getElem?_cons_zero] at hi
      have h2 := poll_next_done_chunk s d (Option.some_inj.1 hi)
      cases j with
      | zero => omega
      | succ j2 =>
        rw [List.getElem?_cons_succ, run_done _ h2, List.getElem?_replicate]
        rw [if_pos (by omega)]
  | succ i2 ih =>
    cases n with
    | zero => omega
    | succ m =>
      cases j with
      | zero => omega
      | succ j2 =>
        rw [show s.run (m + 1) = (s.poll_next).2 :: (s.poll_next).1.run m
          from rfl] at hi ⊢
        rw [List.getElem?_cons_succ] at hi ⊢
        exact ih (s.poll_next).1 m j2 (by omega) (by omega) hi

/-- C10 witness: a concrete streamer whose first poll yields a done-marked
chunk; the second poll returns end-of-stream. -/
theorem stream_done_terminal_witness :
    ((Streamer.mk [Response.CompletionChunk true ""] false).run 3)[1]? =
      some (PollResult.ready none) := by
  exact stream_done_terminal ⟨[Response.CompletionChunk true ""], false⟩ 3 0 1 ""
    (by omega) (by omega) (by rfl)

end Completions

namespace Llama

/-! ## The cache rotation loop (C4, C5) -/

/-- Over the four per-device caches, one chunk's rotation loop visits each
cache exactly once, independently of the others, so its net effect is a
map of cacheVisit over the cache vector. -/
lemma chunkStep_len4 (cds : List Device) (b i : Nat) (c : Chunk)
    (c0 c1 c2 c3 : LayerCaches) :
    chunkStep cds b i c [c0, c1, c2, c3] =
      [cacheVisit cds b c c0, cacheVisit cds b c c1,
       cacheVisit cds b c c2, cacheVisit cds b c c3] := by
  have hm : i % 4 = 0 ∨ i % 4 = 1 ∨ i % 4 = 2 ∨ i % 4 = 3 := by omega
  have hmod : ∀ r : Nat, (i + r) % 4 = (i % 4 + r) % 4 := fun r => by omega
  unfold chunkStep rotationStep
  simp only [List.length_cons, List.length_nil, List.length_set,
    Nat.zero_add, Nat.reduceAdd]
  rw [(by decide : List.range 4 = [0, 1, 2, 3])]
  simp only [List.foldl_cons, List.foldl_nil, List.length_set,
    List.length_cons, List.length_nil, Nat.zero_add, Nat.reduceAdd, hmod]
  rcases hm with hm | hm | hm | hm <;>
    simp [hm, List.set, List.getD]

lemma foldPairs_chunkStep (cds : List Device) (b : Nat)
    (ps : List (Nat × Chunk)) (c0 c1 c2 c3 : LayerCaches) :
    ps.foldl (fun cs ic => chunkStep cds b ic.1 ic.2 cs) [c0, c1, c2, c3] =
      [ps.foldl (fun ca ic => cacheVisit cds b ic.2 ca) c0,
       ps.foldl (fun ca ic => cacheVisit cds b ic.2 ca) c1,
       ps.foldl (fun ca ic => cacheVisit cds b ic.2 ca) c2,
       ps.foldl (fun ca ic => cacheVisit cds b ic.2 ca) c3] := by
  induction ps generalizing c0 c1 c2 c3 with
  | nil => rfl
  | cons p tl ih =>
    simp only [List.foldl_cons]
    rw [chunkStep_len4]
    exact ih _ _ _ _

/-- The chunk loop of one block acts on the four caches independently:
cache k undergoes the chunk visits in chunk order. -/
lemma blockCachesStep_len4 (cds : List Device) (b : Nat)
    (chunks : List Chunk) (c0 c1 c2 c3 : LayerCaches) :
    blockCachesStep cds b chunks [c0, c1, c2, c3] =
      [chunks.foldl (fun ca ch => cacheVisit cds b ch ca) c0,
       chunks.foldl (fun ca ch => cacheVisit cds b ch ca) c1,
       chunks.foldl (fun ca ch => cacheVisit cds b ch ca) c2,
       chunks.foldl (fun ca ch => cacheVisit cds b ch ca) c3] := by
  unfold blockCachesStep
  rw [foldPairs_chunkStep]
  have he : ∀ ca : LayerCaches,
      chunks.enum.foldl (fun x ic => cacheVisit cds b ic.2 x) ca =
        chunks.foldl (fun x ch => cacheVisit cds b ch x) ca := by
    intro ca
    rw [← List.enum_map_snd chunks, List.foldl_map]
    rw [List.enum_map_snd chunks]
  rw [he c0, he c1, he c2, he c3]

/-- The whole forward pass acts on the four caches independently: cache k
undergoes, for each block in order, the chunk visits of that block. -/
lemma forwardCaches_len4 (cds : List Device) (L S : Nat)
    (c0 c1 c2 c3 : LayerCaches) :
    forwardCaches cds L S [c0, c1, c2, c3] =
      [(List.range L).foldl (fun ca bi =>
          (makeChunks S).foldl (fun x ch => cacheVisit cds bi ch x) ca) c0,
       (List.range L).foldl (fun ca bi =>
          (makeChunks S).foldl (fun x ch => cacheVisit cds bi ch x) ca) c1,
       (List.range L).foldl (fun ca bi =>
          (makeChunks S).foldl (fun x ch => cacheVisit cds bi ch x) ca) c2,
       (List.range L).foldl (fun ca bi =>
          (makeChunks S).foldl (fun x ch => cacheVisit cds bi ch x) ca) c3] := by
  unfold forwardCaches
  generalize (makeChunks S) = chunks
  generalize List.range L = bs
  induction bs generalizing c0 c1 c2 c3 with
  | nil => rfl
  | cons bhead tl ih =>
    simp only [List.foldl_cons]
    rw [blockCachesStep_len4]
    exact ih _ _ _ _

/-! ## Slot past lengths through the loop (C4) -/

lemma slotLen_move (o : Option KVSlot) (d : Device) :
    slotLen (Option.map (fun kv => (⟨d, kv.pastLen⟩ : KVSlot)) o) =
      slotLen o := by
  cases o <;> rfl

lemma moveCache_length (ca : LayerCaches) (d : Device) :
    (moveCache ca d).length = ca.length := by
  unfold moveCache
  rw [List.length_map]

lemma moveCache_slotLen (ca : LayerCaches) (d : Device) (j : Nat) :
    slotLen ((moveCache ca d).getD j none) = slotLen (ca.getD j none) := by
  rw [List.getD_eq_getElem?_getD, List.getD_eq_getElem?_getD]
  unfold moveCache
  rw [List.getElem?_map]
  rcases ca[j]? with _ | o
  · rfl
  · exact slotLen_move o d

lemma cacheVisit_length (cds : List Device) (b : Nat) (ch : Chunk)
    (ca : LayerCaches) : (cacheVisit cds b ch ca).length = ca.length := by
  unfold cacheVisit
  rw [moveCache_length, List.length_set, moveCache_length]

lemma update_slotLen (s : Option KVSlot) (dev : Device) (len : Nat) :
    (update_kv_cache s dev len).pastLen = (slotLen s).getD 0 + len := by
  cases s <;> simp [update_kv_cache, slotLen]

lemma cacheVisit_slotLen (cds : List Device) (b : Nat) (ch : Chunk)
    (ca : LayerCaches) (j : Nat) :
    slotLen ((cacheVisit cds b ch ca).getD j none) =
      if j = b ∧ b < ca.length then
        some ((slotLen (ca.getD j none)).getD 0 + ch.len)
      else slotLen (ca.getD j none) := by
  unfold cacheVisit
  rw [moveCache_slotLen]
  by_cases hj : j = b ∧ b < ca.length
  · obtain ⟨rfl, hb⟩ := hj
    rw [if_pos ⟨rfl, hb⟩]
    rw [List.getD_eq_getElem?_getD]
    rw [List.getElem?_set_self (by rw [moveCache_length]; exact hb)]
    simp only [Option.getD_some]
    rw [show ∀ kv : KVSlot, slotLen (some kv) = some kv.pastLen
      from fun kv => rfl]
    rw [update_slotLen, moveCache_slotLen]
  · rw [if_neg hj]
    rw [List.getD_eq_getElem?_getD]
    by_cases hb : b < ca.length
    · have hjb : j ≠ b := fun h => hj ⟨h, hb⟩
      rw [List.getElem?_set_ne (Ne.symm hjb)]
      rw [← List.getD_eq_getElem?_getD, moveCache_slotLen]
    · rw [List.set_eq_of_length_le (by rw [moveCache_length]; omega)]
      rw [← List.getD_eq_getElem?_getD, moveCache_slotLen]

lemma visitFold_length (cds : List Device) (b : Nat) (chunks : List Chunk)
    (ca : LayerCaches) :
    (chunks.foldl (fun x ch => cacheVisit cds b ch x) ca).length =
      ca.length := by
  induction chunks generalizing ca with
  | nil => rfl
  | cons ch tl ih => rw [List.foldl_cons, ih, cacheVisit_length]

lemma visitFold_slotLen (cds : List Device) (b : Nat) (chunks : List Chunk)
    (ca : LayerCaches) (j : Nat) :
    slotLen ((chunks.foldl (fun x ch => cacheVisit cds b ch x) ca).getD j none) =
      if j = b ∧ b < ca.length then
        slotLenFold (slotLen (ca.getD j none)) chunks
      else slotLen (ca.getD j none) := by
  induction chunks generalizing ca with
  | nil =>
    simp only [List.foldl_nil, slotLenFold]
    split <;> rfl
  | cons ch tl ih =>
    rw [List.foldl_cons, ih, cacheVisit_length]
    by_cases hc : j = b ∧ b < ca.length
    · rw [if_pos hc, if_pos hc, cacheVisit_slotLen, if_pos hc]
      rfl
    · rw [if_neg hc, if_neg hc, cacheVisit_slotLen, if_neg hc]

lemma slotLenFold_sum (chunks : List Chunk) (p : Option Nat)
    (h : chunks ≠ []) :
    slotLenFold p chunks = some (p.getD 0 + ((chunks.map Chunk.len).sum)) := by
  induction chunks generalizing p with
  | nil => exact absurd rfl h
  | cons ch tl ih =>
    by_cases htl : tl = []
    · subst htl
      simp [slotLenFold]
    · rw [show slotLenFold p (ch :: tl) =
        slotLenFold (some (p.getD 0 + ch.len)) tl from rfl]
      rw [ih _ htl]
      simp only [Option.getD_some, List.map_cons, List.sum_cons]
      congr 1
      omega

lemma foldUpd_not_mem (chunks : List Chunk) (bs : List Nat) (j : Nat)
    (h : j ∉ bs) (p : Option Nat) :
    bs.foldl (fun q bi => if j = bi then slotLenFold q chunks else q) p = p := by
  induction bs generalizing p with
  | nil => rfl
  | cons bi tl ih =>
    rw [List.foldl_cons, if_neg (by intro he; exact h (by simp [he]))]
    exact ih (fun hm => h (List.mem_cons_of_mem _ hm)) p

lemma visitBlocks_slotLen (cds : List Device) (chunks : List Chunk)
    (bs : List Nat) (ca : LayerCaches) (j : Nat) (hj : j < ca.length) :
    slotLen ((bs.foldl (fun x bi =>
        chunks.foldl (fun y ch => cacheVisit cds bi ch y) x) ca).getD j none) =
      bs.foldl (fun q bi => if j = bi then slotLenFold q chunks else q)
        (slotLen (ca.getD j none)) := by
  induction bs generalizing ca with
  | nil => rfl
  | cons bi tl ih =>
    rw [List.foldl_cons, List.foldl_cons]
    rw [ih _ (by rw [visitFold_length]; exact hj)]
    rw [visitFold_slotLen]
    by_cases hjb : j = bi
    · rw [if_pos ⟨hjb, hjb ▸ hj⟩, if_pos hjb]
    · rw [if_neg (fun hc => hjb hc.1), if_neg hjb]

lemma foldUpd_range (chunks : List Chunk) (j L : Nat) (hj : j < L) :
    (List.range L).foldl
        (fun q bi => if j = bi then slotLenFold q chunks else q) none =
      slotLenFold none chunks := by
  induction L with
  | zero => omega
  | succ L ih =>
    rw [List.range_succ, List.foldl_append, List.foldl_cons, List.foldl_nil]
    by_cases hjL : j < L
    · rw [ih hjL, if_neg (by omega)]
    · have hjeq : j = L := by omega
      rw [foldUpd_not_mem chunks _ j (by simp [List.mem_range]; omega) none]
      rw [if_pos hjeq]

lemma replicate_getD_none (L j : Nat) :
    (List.replicate L (none : Option KVSlot)).getD j none = none := by
  rw [List.getD_eq_getElem?_getD, List.getElem?_replicate]
  split <;> rfl

/-- C4 (spec-modelled KV-cache append): starting from the four empty
per-device caches, a forward pass over an input of sequence length n with
the eager (non-paged) backend leaves every layer slot of every cache with
past length exactly n — each cache is visited once per chunk per block,
appending that chunk's positions at that block's slot — and no visit ever
shortens a slot's past length. -/
theorem forward_cache_past_len (cds : List Device) (L S : Nat)
    (hS : 0 < S) :
    ((forwardCaches cds L S
        (List.replicate num_devices (List.replicate L none))).length =
      num_devices) ∧
    (∀ k j : Nat, k < num_devices → j < L →
      slotLen (((forwardCaches cds L S
        (List.replicate num_devices
          (List.replicate L none))).getD k []).getD j none) = some S) ∧
    (∀ (ca : LayerCaches) (b : Nat) (ch : Chunk) (j : Nat),
      (slotLen (ca.getD j none)).getD 0 ≤
        (slotLen ((cacheVisit cds b ch ca).getD j none)).getD 0) := by
  have hrep : List.replicate num_devices
      (List.replicate L (none : Option KVSlot)) =
      [List.replicate L none, List.replicate L none,
       List.replicate L none, List.replicate L none] := rfl
  rw [hrep, forwardCaches_len4]
  refine ⟨rfl, ?_, ?_⟩
  · intro k j hk hj
    have hone : slotLen (((List.range L).foldl (fun ca bi =>
        (makeChunks S).foldl (fun x ch => cacheVisit cds bi ch x) ca)
        (List.replicate L none)).getD j none) = some S := by
      rw [visitBlocks_slotLen _ _ _ _ _ (by rw [List.length_replicate]; exact hj)]
      rw [replicate_getD_none]
      rw [show (slotLen none : Option Nat) = none from rfl]
      rw [foldUpd_range _ _ _ hj]
      rw [slotLenFold_sum _ _ (makeChunks_ne_nil S hS)]
      simp [makeChunks_len_sum]
    have hk4 : k < 4 := hk
    interval_cases k
    · exact hone
    · exact hone
    · exact hone
    · exact hone
  · intro ca b ch j
    rw [cacheVisit_slotLen]
    split
    · simp only [Option.getD_some]
      omega
    · exact le_refl _

/-- C4 witness: a one-layer model over a length-1 input leaves slot 0 of
cache 0 with past length 1. -/
theorem forward_cache_past_len_witness :
    slotLen (((forwardCaches [0, 1, 2, 3] 1 1
        (List.replicate num_devices (List.replicate 1 none))).getD 0
          []).getD 0 none) = some 1 :=
  (forward_cache_past_len [0, 1, 2, 3] 1 1 (by decide)).2.1 0 0
    (by decide) (by decide)

/-! ## Device residency through staging and restore (C5) -/

lemma moveCache_resident (ca : LayerCaches) (d : Device) :
    residentOn (moveCache ca d) d := by
  intro slot hmem kv hkv
  rcases List.mem_map.1 hmem with ⟨o, ho, rfl⟩
  cases o with
  | none => exact Option.noConfusion hkv
  | some kv0 =>
    injection hkv with h
    subst h
    rfl

lemma findSome?_device (ca : LayerCaches) (d : Device)
    (hres : residentOn ca d) (hne : cacheNonempty ca) :
    ca.findSome? (fun opt => opt.map (fun kv => kv.device)) = some d := by
  induction ca with
  | nil =>
    rcases hne with ⟨slot, hmem, _⟩
    simp at hmem
  | cons s tl ih =>
    cases s with
    | some kv =>
      have hd : kv.device = d := hres (some kv) (by simp) kv rfl
      simp [List.findSome?_cons, hd]
    | none =>
      have hne2 : cacheNonempty tl := by
        rcases hne with ⟨slot, hmem, hs⟩
        rcases List.mem_cons.1 hmem with heq | hmem2
        · rw [heq] at hs
          exact absurd hs (by simp)
        · exact ⟨slot, hmem2, hs⟩
      have hres2 : residentOn tl d := fun slot hm kv hkv =>
        hres slot (List.mem_cons_of_mem _ hm) kv hkv
      simpa [List.findSome?_cons] using ih hres2 hne2

lemma originalCacheDevice_resident (ca : LayerCaches) (d dc : Device)
    (hres : residentOn ca d) (hne : cacheNonempty ca) :
    originalCacheDevice ca dc = d := by
  unfold originalCacheDevice
  rw [findSome?_device ca d hres hne]

/-- After its visit, a nonempty cache resident on d is resident on d
again: the restore step moves every slot back to the recorded original
device, which is d. -/
lemma cacheVisit_resident (cds : List Device) (b : Nat) (ch : Chunk)
    (ca : LayerCaches) (d : Device)
    (hres : residentOn ca d) (hne : cacheNonempty ca) :
    residentOn (cacheVisit cds b ch ca) d := by
  simp only [cacheVisit]
  rw [originalCacheDevice_resident ca d _ hres hne]
  exact moveCache_resident _ d

lemma moveCache_nonempty (ca : LayerCaches) (d : Device)
    (h : cacheNonempty ca) : cacheNonempty (moveCache ca d) := by
  rcases h with ⟨slot, hmem, hs⟩
  refine ⟨Option.map (fun kv => ⟨d, kv.pastLen⟩) slot,
    List.mem_map_of_mem _ hmem, ?_⟩
  cases slot
  · simp at hs
  · simp

lemma set_some_nonempty (l : LayerCaches) (b : Nat) (v : KVSlot)
    (h : cacheNonempty l) : cacheNonempty (l.set b (some v)) := by
  by_cases hb : b < l.length
  · refine ⟨some v, ?_, by simp⟩
    have he : (l.set b (some v))[b]? = some (some v) :=
      List.getElem?_set_self (by exact hb)
    exact List.getElem?_mem he
  · rw [List.set_eq_of_length_le (by omega)]
    exact h

lemma cacheVisit_nonempty (cds : List Device) (b : Nat) (ch : Chunk)
    (ca : LayerCaches) (h : cacheNonempty ca) :
    cacheNonempty (cacheVisit cds b ch ca) := by
  simp only [cacheVisit]
  exact moveCache_nonempty _ _ (set_some_nonempty _ _ _ (moveCache_nonempty _ _ h))

lemma visitFold_resident (cds : List Device) (b : Nat) (chunks : List Chunk)
    (ca : LayerCaches) (d : Device)
    (hres : residentOn ca d) (hne : cacheNonempty ca) :
    residentOn (chunks.foldl (fun x ch => cacheVisit cds b ch x) ca) d ∧
    cacheNonempty (chunks.foldl (fun x ch => cacheVisit cds b ch x) ca) := by
  induction chunks generalizing ca with
  | nil => exact ⟨hres, hne⟩
  | cons ch tl ih =>
    rw [List.foldl_cons]
    exact ih _ (cacheVisit_resident cds b ch ca d hres hne)
      (cacheVisit_nonempty cds b ch ca hne)

/-- C5: during the chunk-attention loop, rotation r of chunk с touches
only the cache with index (chunk_idx + r) % num_caches (every other cache
is untouched); the staged copy handed to the attention call resides
entirely on the chunk's device; a visited nonempty cache resident on d is
restored to d; and a cache that is nonempty and resident on d when a
block's chunk loop starts is resident on d again when the loop
completes. -/
theorem cache_rotation_staging_restore
    (cds : List Device) (b i r : Nat) (c : Chunk)
    (caches : List LayerCaches) (chunks : List Chunk) (ca : LayerCaches)
    (d : Device) (k : Nat)
    (hlen : caches.length = num_devices)
    (hres : residentOn (caches.getD k []) d)
    (hne : cacheNonempty (caches.getD k [])) :
    (k ≠ (i + r) % caches.length →
      (rotationStep cds b i c caches r).getD k [] = caches.getD k []) ∧
    residentOn (moveCache ca (cds.getD c.deviceIdx 0))
      (cds.getD c.deviceIdx 0) ∧
    (∀ d2 : Device, residentOn ca d2 → cacheNonempty ca →
      residentOn (cacheVisit cds b c ca) d2) ∧
    residentOn ((blockCachesStep cds b chunks caches).getD k []) d := by
  refine ⟨?_, moveCache_resident ca _,
    fun d2 h1 h2 => cacheVisit_resident cds b c ca d2 h1 h2, ?_⟩
  · intro hk
    unfold rotationStep
    rw [List.getD_eq_getElem?_getD, List.getD_eq_getElem?_getD,
      List.getElem?_set_ne (Ne.symm hk)]
  · obtain ⟨c0, c1, c2, c3, rfl⟩ :
        ∃ c0 c1 c2 c3, caches = [c0, c1, c2, c3] := by
      rcases caches with _ | ⟨c0, _ | ⟨c1, _ | ⟨c2, _ | ⟨c3, _ | ⟨c5, tl⟩⟩⟩⟩⟩ <;>
        simp [num_devices] at hlen
      exact ⟨c0, c1, c2, c3, rfl⟩
    rw [blockCachesStep_len4]
    rcases k with _ | _ | _ | _ | k
    · exact (visitFold_resident cds b chunks c0 d hres hne).1
    · exact (visitFold_resident cds b chunks c1 d hres hne).1
    · exact (visitFold_resident cds b chunks c2 d hres hne).1
    · exact (visitFold_resident cds b chunks c3 d hres hne).1
    · intro slot hmem kv hkv
      exact absurd hmem (List.not_mem_nil _)

/-- C5 witness: four one-slot caches resident on device 7; after the chunk
loop of a block over two single-token chunks, cache 2 is again resident
on device 7. -/
theorem cache_rotation_staging_restore_witness :
    residentOn ((blockCachesStep [0, 1, 2, 3] 0 [⟨0, 1, 0⟩, ⟨1, 2, 1⟩]
        [[some ⟨7, 1⟩], [some ⟨7, 1⟩], [some ⟨7, 1⟩],
         [some ⟨7, 1⟩]]).getD 2 []) 7 :=
  (cache_rotation_staging_restore [0, 1, 2, 3] 0 0 1 ⟨0, 1, 0⟩
    [[some ⟨7, 1⟩], [some ⟨7, 1⟩], [some ⟨7, 1⟩], [some ⟨7, 1⟩]]
    [⟨0, 1, 0⟩, ⟨1, 2, 1⟩] [some ⟨5, 2⟩] 7 2
    (by decide) (by decide) (by decide)).2.2.2

end Llama

